import Mathlib

/-!
Shallow embedding of `pep440-version-utils` (`pep440_version_utils/version.py`)
together with the parts of its external dependency `packaging.version` that the
library's behaviour depends on (`_Version`, `_cmpkey`, `__str__`, `public`,
`base_version`, and the `major`/`minor`/`micro`/`is_devrelease` properties).

Conventions of the embedding:
* The parsed structured value `packaging.version._Version` becomes
  `VersionTuple`.  The `local` segment is stored as the parsed list of
  alternating alphanumeric/numeric parts (`_parse_local_version`).
* Machine integers are `Nat` (all the integers involved are non-negative and
  Python integers are unbounded, so no wrap-around modelling is needed).
* Methods that can raise (`TypeError` for an unknown `version_bump`) return
  `Except String VersionTuple`.
* Python truthiness tests on integers (`if not version.micro`,
  `if devrelease_id`) are translated as explicit comparisons with `0`, and the
  truthiness test on an optional tuple (`if not type_number_pair`) as an
  `Option` match; a 2-tuple is always truthy.
-/

namespace Pep440

/-- One parsed part of a PEP440 local version segment
(`packaging.version._parse_local_version` produces a tuple whose entries are
either `int` or lowercase `str`). -/
inductive LocalPart where
  | num (n : Nat)
  | str (s : String)
deriving DecidableEq

/-- Embeds `packaging.version._Version`: the named tuple holding the parsed pieces of
a version.  `pre`, `post` and `dev` are optional `(letter, number)` pairs; the
`post`/`dev` properties of `Version` expose only the number.  The field
modelling `local` is called `loc` because `local` is a Lean keyword. -/
structure VersionTuple where
  epoch : Nat
  release : List Nat
  pre : Option (String × Nat)
  post : Option (String × Nat)
  dev : Option (String × Nat)
  loc : Option (List LocalPart)
deriving DecidableEq

/-! ### The sort key (`packaging.version._cmpkey`) and its ordering -/

/-- Three-way comparison of naturals, mirroring Python `int` comparison. -/
def cmpNat (a b : Nat) : Ordering :=
  if a < b then .lt else if b < a then .gt else .eq

/-- Python tuple comparison of integer tuples: lexicographic, a strict prefix
compares less than the longer tuple. -/
def cmpListNat : List Nat → List Nat → Ordering
  | [], [] => .eq
  | [], _ :: _ => .lt
  | _ :: _, [] => .gt
  | a :: as, b :: bs => (cmpNat a b).then (cmpListNat as bs)

/-- Python `str` comparison compares code points. -/
def cmpChar (a b : Char) : Ordering := cmpNat a.toNat b.toNat

/-- Lexicographic comparison of character lists (Python `str` comparison). -/
def cmpCharList : List Char → List Char → Ordering
  | [], [] => .eq
  | [], _ :: _ => .lt
  | _ :: _, [] => .gt
  | a :: as, b :: bs => (cmpChar a b).then (cmpCharList as bs)

/-- Python string comparison. -/
def cmpString (s t : String) : Ordering := cmpCharList s.data t.data

/-- The value stored in the `pre`/`post`/`dev` slots of the sort key:
either `NegativeInfinity`, a `(letter, number)` pair, or `Infinity`
(`packaging.version.CmpPrePostDevType`). -/
inductive PPD where
  | negInf
  | seg (s : String) (n : Nat)
  | inf
deriving DecidableEq

/-- Comparison of `pre`/`post`/`dev` key slots: `NegativeInfinity` is below
everything, `Infinity` above everything, and two `(letter, number)` pairs are
compared as Python tuples (letter first, then number). -/
def cmpPPD : PPD → PPD → Ordering
  | .negInf, .negInf => .eq
  | .negInf, _ => .lt
  | _, .negInf => .gt
  | .inf, .inf => .eq
  | .inf, _ => .gt
  | _, .inf => .lt
  | .seg s n, .seg t m => (cmpString s t).then (cmpNat n m)

/-- Comparison of single local-segment parts after `_cmpkey`'s mapping
`i ↦ (i, "")` for integers and `s ↦ (NegativeInfinity, s)` for strings:
string parts sort before numeric parts, numeric parts numerically,
string parts lexicographically. -/
def cmpLocalPart : LocalPart → LocalPart → Ordering
  | .str s, .str t => cmpString s t
  | .str _, .num _ => .lt
  | .num _, .str _ => .gt
  | .num i, .num j => cmpNat i j

/-- Python tuple comparison of the mapped local-segment tuples. -/
def cmpLocalList : List LocalPart → List LocalPart → Ordering
  | [], [] => .eq
  | [], _ :: _ => .lt
  | _ :: _, [] => .gt
  | a :: as, b :: bs => (cmpLocalPart a b).then (cmpLocalList as bs)

/-- Comparison of the local slot of the sort key: an absent local segment is
`NegativeInfinity`, i.e. below any present one. -/
def cmpLocal : Option (List LocalPart) → Option (List LocalPart) → Ordering
  | none, none => .eq
  | none, some _ => .lt
  | some _, none => .gt
  | some a, some b => cmpLocalList a b

/-- Embeds the release trimming of `_cmpkey`, which drops trailing zeros:
`reversed(dropwhile(lambda x: x == 0, reversed(release)))`. -/
def trimZeros (r : List Nat) : List Nat :=
  ((r.reverse).dropWhile (· == 0)).reverse

/-- The sort key produced by `packaging.version._cmpkey`.  The local slot keeps
the parsed parts; its `_cmpkey` mapping to pairs is folded into `cmpLocalPart`. -/
structure CmpKey where
  epoch : Nat
  release : List Nat
  pre : PPD
  post : PPD
  dev : PPD
  loc : Option (List LocalPart)
deriving DecidableEq

/-- The `pre` slot of the key: `NegativeInfinity` for a dev release without pre
and post (so that `1.0.dev0` sorts before `1.0a0`), `Infinity` when `pre` is
absent otherwise, and the pre pair itself when present. -/
def preKey (v : VersionTuple) : PPD :=
  match v.pre, v.post, v.dev with
  | none, none, some _ => .negInf
  | none, _, _ => .inf
  | some (s, n), _, _ => .seg s n

/-- The `post` slot of the key: absent post sorts below any present post. -/
def postKey (v : VersionTuple) : PPD :=
  match v.post with
  | none => .negInf
  | some (s, n) => .seg s n

/-- The `dev` slot of the key: absent dev sorts above any present dev. -/
def devKey (v : VersionTuple) : PPD :=
  match v.dev with
  | none => .inf
  | some (s, n) => .seg s n

/-- Embeds `packaging.version._cmpkey` applied to the six fields of `_Version`. -/
def cmpkey (v : VersionTuple) : CmpKey :=
  ⟨v.epoch, trimZeros v.release, preKey v, postKey v, devKey v, v.loc⟩

/-- Python comparison of two sort keys: the 6-tuples are compared
lexicographically. -/
def cmpVKey (k₁ k₂ : CmpKey) : Ordering :=
  (cmpNat k₁.epoch k₂.epoch).then
    ((cmpListNat k₁.release k₂.release).then
      ((cmpPPD k₁.pre k₂.pre).then
        ((cmpPPD k₁.post k₂.post).then
          ((cmpPPD k₁.dev k₂.dev).then (cmpLocal k₁.loc k₂.loc)))))

/-- Embeds `Version.__gt__`: `self._key > other._key` (the cached keys of versions
produced by parsing or by the transition operations are always the `_cmpkey`
of their fields, see `_reset_sort_key`). -/
def versionGt (a b : VersionTuple) : Prop := cmpVKey (cmpkey a) (cmpkey b) = .gt

/-- Embeds `Version.__lt__`: `self._key < other._key`. -/
def versionLt (a b : VersionTuple) : Prop := cmpVKey (cmpkey a) (cmpkey b) = .lt

instance (a b : VersionTuple) : Decidable (versionGt a b) := by
  unfold versionGt; infer_instance

instance (a b : VersionTuple) : Decidable (versionLt a b) := by
  unfold versionLt; infer_instance

/-! ### Rendering (`Version.__str__`, `public`, `base_version`) -/

/-- The epoch part of `__str__`: `f"{epoch}!"` when the epoch is nonzero. -/
def epochStr (v : VersionTuple) : String :=
  if v.epoch ≠ 0 then toString v.epoch ++ "!" else ("")

/-- The release part of `__str__`: `".".join(str(x) for x in release)`. -/
def releaseStr (v : VersionTuple) : String :=
  String.intercalate (".") (v.release.map toString)

/-- The pre-release part of `__str__`: `"".join(str(x) for x in pre)`. -/
def preStr (v : VersionTuple) : String :=
  match v.pre with
  | none => ""
  | some (s, n) => s ++ toString n

/-- The post-release part of `__str__`: `f".post{post}"` (the `post` property
exposes the number of the pair). -/
def postStr (v : VersionTuple) : String :=
  match v.post with
  | none => ""
  | some p => ".post" ++ toString p.2

/-- The dev-release part of `__str__`: `f".dev{dev}"`. -/
def devStr (v : VersionTuple) : String :=
  match v.dev with
  | none => ""
  | some p => ".dev" ++ toString p.2

/-- The local part of `__str__`: `f"+{local}"` where the `local` property is
`".".join(str(x) for x in local)`. -/
def localSuffix (v : VersionTuple) : String :=
  match v.loc with
  | none => ""
  | some parts =>
      "+" ++ String.intercalate (".")
        (parts.map fun p => match p with | .num n => toString n | .str s => s)

/-- Embeds `Version.public`: `str(self).split("+", 1)[0]`.  The only `"+"` in
`str(self)` is the separator introduced before the local segment (epoch,
release, pre, post and dev render digits, dots, `!` and lowercase letters,
and parsed local parts are lowercase alphanumerics), so the split returns
exactly the rendering of everything before the local segment. -/
def publicStr (v : VersionTuple) : String :=
  epochStr v ++ releaseStr v ++ preStr v ++ postStr v ++ devStr v

/-- Embeds `Version.base_version`: epoch and release segment only. -/
def base_version (v : VersionTuple) : String :=
  epochStr v ++ releaseStr v

/-- Embeds `Version.__str__`. -/
def versionStr (v : VersionTuple) : String :=
  publicStr v ++ localSuffix v

/-! ### Properties of `Version` used by the transition code -/

/-- Embeds `release[0] if len(release) >= 1 else 0`, on a raw release list. -/
def majorL (r : List Nat) : Nat := r.getD 0 0

/-- Embeds `release[1] if len(release) >= 2 else 0`, on a raw release list. -/
def minorL (r : List Nat) : Nat := r.getD 1 0

/-- Embeds `release[2] if len(release) >= 3 else 0`, on a raw release list. -/
def microL (r : List Nat) : Nat := r.getD 2 0

/-- Embeds `Version.major`. -/
def major (v : VersionTuple) : Nat := majorL v.release

/-- Embeds `Version.minor`. -/
def minor (v : VersionTuple) : Nat := minorL v.release

/-- Embeds `Version.micro`. -/
def micro (v : VersionTuple) : Nat := microL v.release

/-- Embeds `Version.is_devrelease`: `self.dev is not None`. -/
def is_devrelease (v : VersionTuple) : Bool := v.dev.isSome

/-- Embeds `Version.is_release` (from `pep440_version_utils`):
`self.public == self.base_version`. -/
def is_release (v : VersionTuple) : Bool := publicStr v == base_version v

/-! ### The transition operations (`pep440_version_utils/version.py`) -/

/-- Embeds `Version.next_major`.  `major` is first set to `version.major + 1` and then
reset to `version.major` when `not version.is_release and not (version.minor or
version.micro)` (integer truthiness: both are zero). -/
def next_major (v : VersionTuple) : VersionTuple :=
  let mj := if is_release v = false ∧ minor v = 0 ∧ micro v = 0
            then major v else major v + 1
  ⟨v.epoch, [mj, 0, 0], none, none, none, none⟩

/-- Embeds `Version.next_minor`: keeps `minor` when `not version.is_release and not
version.micro`. -/
def next_minor (v : VersionTuple) : VersionTuple :=
  let mn := if is_release v = false ∧ micro v = 0
            then minor v else minor v + 1
  ⟨v.epoch, [major v, mn, 0], none, none, none, none⟩

/-- Embeds `Version.next_micro`: keeps `micro` when `not version.is_release and
version.micro > 0`. -/
def next_micro (v : VersionTuple) : VersionTuple :=
  let mc := if is_release v = false ∧ micro v > 0
            then micro v else micro v + 1
  ⟨v.epoch, [major v, minor v, mc], none, none, none, none⟩

/-- Embeds `_increment_subrelease`: an empty pair starts the requested segment at 1, a
pair in the same segment is incremented, a pair in a different segment is
restarted at 1.  (`if not type_number_pair` is Python truthiness: a 2-tuple is
always truthy, so only `None` takes the first branch.) -/
def _increment_subrelease (type_number_pair : Option (String × Nat))
    (segment : String) : String × Nat :=
  match type_number_pair with
  | none => (segment, 1)
  | some (current_segment, number) =>
      if current_segment == segment then (current_segment, number + 1)
      else (segment, 1)

/-- Embeds `_increment_prerelease`. -/
def _increment_prerelease (prerelease : Option (String × Nat))
    (segment : String) : String × Nat :=
  _increment_subrelease prerelease segment

/-- Embeds `_increment_devrelease`.  `if devrelease_id:` is integer truthiness, so a
present dev number `0` is treated like an absent one (both yield `("dev", 1)`). -/
def _increment_devrelease (devrelease_id : Option Nat) : String × Nat :=
  let current_tuple : Option (String × Nat) :=
    match devrelease_id with
    | some n => if n ≠ 0 then some ("dev", n) else none
    | none => none
  _increment_subrelease current_tuple ("dev")

/-- Embeds `_next_release_version`: dispatches on `version_bump` and raises
`TypeError(f"Unknown version bump: {version_bump}")` for anything outside
`major`/`minor`/`micro`. -/
def _next_release_version (v : VersionTuple) (version_bump : String) :
    Except String VersionTuple :=
  if version_bump == "major" then .ok (next_major v)
  else if version_bump == "minor" then .ok (next_minor v)
  else if version_bump == "micro" then .ok (next_micro v)
  else .error ("Unknown version bump: " ++ version_bump)

/-- Embeds `_build_suffixed_version`: keeps epoch and release, installs the provided
pre- and dev-release pairs, clears post and local. -/
def _build_suffixed_version (v : VersionTuple)
    (prerelease devrelease : Option (String × Nat)) : VersionTuple :=
  ⟨v.epoch, v.release, prerelease, none, devrelease, none⟩

/-- Embeds `_next_prerelease_version`: bumps the release segment first when the input
is a final release (propagating a `TypeError` for an unknown bump), then
increments the pre-release pair towards `segment` and clears dev. -/
def _next_prerelease_version (version : VersionTuple)
    (version_bump segment : String) : Except String VersionTuple :=
  match (if is_release version
         then _next_release_version version version_bump
         else .ok version) with
  | .error e => .error e
  | .ok v2 =>
      .ok (_build_suffixed_version v2 (_increment_prerelease v2.pre segment) none)

/-- Embeds `_next_devrelease_version`: bumps the release segment first when the input
is a final release; keeps the pre pair when already a dev release, otherwise
increments the current pre phase within itself; increments the dev counter. -/
def _next_devrelease_version (version : VersionTuple) (version_bump : String) :
    Except String VersionTuple :=
  match (if is_release version
         then _next_release_version version version_bump
         else .ok version) with
  | .error e => .error e
  | .ok v2 =>
      let prerelease : Option (String × Nat) :=
        match v2.pre with
        | none => none
        | some pr =>
            if is_devrelease v2 then some pr
            else some (_increment_prerelease (some pr) pr.1)
      let devrelease := _increment_devrelease (v2.dev.map Prod.snd)
      .ok (_build_suffixed_version v2 prerelease (some devrelease))

/-- The pre pair installed by `_next_devrelease_version` (its
`prerelease` local variable). -/
def devPre (u : VersionTuple) : Option (String × Nat) :=
  match u.pre with
  | none => none
  | some pr =>
      if is_devrelease u then some pr
      else some (_increment_prerelease (some pr) pr.1)

/-- Embeds `Version.next_alpha` (the Python default for `version_bump` is `"micro"`;
the argument is kept explicit here). -/
def next_alpha (v : VersionTuple) (version_bump : String) :
    Except String VersionTuple :=
  _next_prerelease_version v version_bump ("a")

/-- Embeds `Version.next_beta`. -/
def next_beta (v : VersionTuple) (version_bump : String) :
    Except String VersionTuple :=
  _next_prerelease_version v version_bump ("b")

/-- Embeds `Version.next_release_candidate`. -/
def next_release_candidate (v : VersionTuple) (version_bump : String) :
    Except String VersionTuple :=
  _next_prerelease_version v version_bump ("rc")

/-- Embeds `Version.next_dev`. -/
def next_dev (v : VersionTuple) (version_bump : String) :
    Except String VersionTuple :=
  _next_devrelease_version v version_bump

/-- Well-formedness guaranteed by the PEP440 parser for every parsed version:
the release segment is nonempty, the pre letter is one of the normalized
`a`/`b`/`rc`, the post letter is `post` and the dev letter is `dev`. -/
def wellFormed (v : VersionTuple) : Bool :=
  !v.release.isEmpty &&
  (match v.pre with
   | none => true
   | some (s, _) => s == "a" || s == "b" || s == "rc") &&
  (match v.post with
   | none => true
   | some (s, _) => s == "post") &&
  (match v.dev with
   | none => true
   | some (s, _) => s == "dev")

/-- Rank of a pre-release phase letter in PEP440 ordering (`a < b < rc`),
used to state which phase transitions do not regress. -/
def phaseRank (s : String) : Nat :=
  if s = "a" then 0 else if s = "b" then 1 else if s = "rc" then 2 else 3

/-! ### A small heap model for `__copy__` (object identity and aliasing) -/

/-- A Python `Version` object: its `_version` named tuple and its cached
`_key` attribute. -/
structure VersionObj where
  fields : VersionTuple
  key : CmpKey
deriving DecidableEq

/-- A heap of `Version` objects; valid references are the indices below
`next`. -/
structure Heap where
  mem : Nat → VersionObj
  next : Nat

/-- Embeds `Version.__copy__`: `Version(str(self))` allocates a fresh object (the
fields parsed from the rendered string are immediately overwritten, so they do
not matter for the final state), then `new_version._version =
copy(self._version)` installs a value copy of the original named tuple (the
tuple is immutable, so a shallow copy is a value copy) and
`_reset_sort_key(new_version)` recomputes the cached key from those fields.
Returns the updated heap and the fresh reference. -/
def copyVersion (h : Heap) (r : Nat) : Heap × Nat :=
  let obj : VersionObj :=
    { fields := (h.mem r).fields, key := cmpkey (h.mem r).fields }
  ({ mem := fun i => if i = h.next then obj else h.mem i,
     next := h.next + 1 }, h.next)

/-- Mutating the `_version` attribute of the object at reference `r`. -/
def setFields (h : Heap) (r : Nat) (t : VersionTuple) : Heap :=
  { mem := fun i => if i = r then { h.mem i with fields := t } else h.mem i,
    next := h.next }

/-- Mutating the cached `_key` attribute of the object at reference `r`. -/
def setKey (h : Heap) (r : Nat) (k : CmpKey) : Heap :=
  { mem := fun i => if i = r then { h.mem i with key := k } else h.mem i,
    next := h.next }

/-! ### Basic facts about the comparison functions -/

lemma then_eq (o : Ordering) : Ordering.eq.then o = o := rfl

lemma then_gt (o : Ordering) : Ordering.gt.then o = .gt := rfl

lemma cmpNat_self (a : Nat) : cmpNat a a = .eq := by
  unfold cmpNat
  rw [if_neg (by omega), if_neg (by omega)]

lemma cmpNat_succ_self (a : Nat) : cmpNat (a + 1) a = .gt := by
  unfold cmpNat
  rw [if_neg (by omega), if_pos (by omega)]

lemma cmpListNat_self (l : List Nat) : cmpListNat l l = .eq := by
  induction l with
  | nil => rfl
  | cons a as ih => show (cmpNat a a).then (cmpListNat as as) = .eq
                    rw [cmpNat_self, then_eq, ih]

lemma cmpCharList_self (l : List Char) : cmpCharList l l = .eq := by
  induction l with
  | nil => rfl
  | cons a as ih => show (cmpChar a a).then (cmpCharList as as) = .eq
                    rw [show cmpChar a a = .eq from cmpNat_self _, then_eq, ih]

lemma cmpString_self (s : String) : cmpString s s = .eq := cmpCharList_self s.data

lemma cmpPPD_self (p : PPD) : cmpPPD p p = .eq := by
  cases p with
  | negInf => rfl
  | inf => rfl
  | seg s n => show (cmpString s s).then (cmpNat n n) = .eq
               rw [cmpString_self, then_eq, cmpNat_self]

lemma cmpPPD_seg_succ (s : String) (n : Nat) :
    cmpPPD (.seg s (n + 1)) (.seg s n) = .gt := by
  show (cmpString s s).then (cmpNat (n + 1) n) = .gt
  rw [cmpString_self, then_eq, cmpNat_succ_self]

lemma cmpPPD_inf_gt (p : PPD) (h : p ≠ .inf) : cmpPPD .inf p = .gt := by
  cases p with
  | negInf => rfl
  | inf => exact absurd rfl h
  | seg s n => rfl

lemma cmpPPD_seg_negInf (s : String) (n : Nat) :
    cmpPPD (.seg s n) .negInf = .gt := rfl

/-! ### Facts about `trimZeros` -/

lemma trimZeros_nil : trimZeros ([] : List Nat) = [] := rfl

lemma trimZeros_eq_nil_iff (l : List Nat) :
    trimZeros l = [] ↔ l.reverse.dropWhile (· == 0) = [] := by
  unfold trimZeros
  exact List.reverse_eq_nil_iff

lemma trimZeros_cons (a : Nat) (l : List Nat) :
    trimZeros (a :: l) =
      if trimZeros l = [] then (if a = 0 then [] else [a])
      else a :: trimZeros l := by
  by_cases h : trimZeros l = []
  · rw [if_pos h]
    have h' : l.reverse.dropWhile (· == 0) = [] := (trimZeros_eq_nil_iff l).mp h
    unfold trimZeros
    rw [List.reverse_cons, List.dropWhile_append, h']
    by_cases ha : a = 0
    · simp [ha]
    · have hb : (a == 0) = false := beq_eq_false_iff_ne.mpr ha
      simp [List.dropWhile, hb, ha]
  · rw [if_neg h]
    have h' : ¬l.reverse.dropWhile (· == 0) = [] :=
      fun hc => h ((trimZeros_eq_nil_iff l).mpr hc)
    unfold trimZeros
    rw [List.reverse_cons, List.dropWhile_append,
      if_neg (by simpa using h'), List.reverse_append]
    simp

lemma trimZeros_cons_shape (a : Nat) (l : List Nat) :
    trimZeros (a :: l) = [] ∨ trimZeros (a :: l) = [a] ∨
      trimZeros (a :: l) = a :: trimZeros l := by
  rw [trimZeros_cons]
  split_ifs <;> simp

lemma trimZeros_one (a : Nat) :
    trimZeros [a] = if a = 0 then [] else [a] := by
  rw [trimZeros_cons]
  simp [trimZeros_nil]

lemma trimZeros_two (a b : Nat) :
    trimZeros [a, b] =
      if b = 0 then (if a = 0 then [] else [a]) else [a, b] := by
  rw [trimZeros_cons, trimZeros_one]
  by_cases hb : b = 0 <;> simp [hb]

lemma trimZeros_three (a b c : Nat) :
    trimZeros [a, b, c] =
      if c = 0 then (if b = 0 then (if a = 0 then [] else [a]) else [a, b])
      else [a, b, c] := by
  rw [trimZeros_cons, trimZeros_two]
  by_cases hc : c = 0 <;> by_cases hb : b = 0 <;> simp [hb, hc]

/-! ### The release-segment comparisons needed for monotonicity -/

lemma cmpListNat_succ_head (x : Nat) (l : List Nat) :
    cmpListNat [x + 1] (trimZeros (x :: l)) = .gt := by
  rcases trimZeros_cons_shape x l with h | h | h <;> rw [h]
  · rfl
  · show (cmpNat (x + 1) x).then (cmpListNat [] []) = .gt
    rw [cmpNat_succ_self, then_gt]
  · show (cmpNat (x + 1) x).then (cmpListNat [] (trimZeros l)) = .gt
    rw [cmpNat_succ_self, then_gt]

lemma cmpListNat_head_then (x : Nat) (l rest : List Nat)
    (hnil : cmpListNat l [] = .gt)
    (hcont : cmpListNat l (trimZeros rest) = .gt) :
    cmpListNat (x :: l) (trimZeros (x :: rest)) = .gt := by
  rcases trimZeros_cons_shape x rest with h | h | h <;> rw [h]
  · cases l with
    | nil => exact absurd hnil (by decide)
    | cons y ys => rfl
  · show (cmpNat x x).then (cmpListNat l []) = .gt
    rw [cmpNat_self, then_eq, hnil]
  · show (cmpNat x x).then (cmpListNat l (trimZeros rest)) = .gt
    rw [cmpNat_self, then_eq, hcont]

lemma cmpListNat_getD_succ (rest : List Nat) :
    cmpListNat [rest.getD 0 0 + 1] (trimZeros rest) = .gt := by
  rcases rest with _ | ⟨r1, rest'⟩
  · rfl
  · rw [List.getD_cons_zero]
    exact cmpListNat_succ_head r1 rest'

/-- Bumping the major component compares greater, whatever the input release. -/
lemma relKey_bump_major (r0 : Nat) (rest : List Nat) :
    cmpListNat (trimZeros [r0 + 1, 0, 0]) (trimZeros (r0 :: rest)) = .gt := by
  have h1 : trimZeros [r0 + 1, 0, 0] = [r0 + 1] := by
    rw [trimZeros_three]; simp
  rw [h1]
  exact cmpListNat_succ_head r0 rest

/-- Bumping the minor component compares greater, whatever the input release. -/
lemma relKey_bump_minor (r0 : Nat) (rest : List Nat) :
    cmpListNat (trimZeros [r0, minorL (r0 :: rest) + 1, 0])
      (trimZeros (r0 :: rest)) = .gt := by
  have h1 : trimZeros [r0, minorL (r0 :: rest) + 1, 0]
      = [r0, minorL (r0 :: rest) + 1] := by
    rw [trimZeros_three]; simp
  rw [h1]
  have hmn : minorL (r0 :: rest) = rest.getD 0 0 := rfl
  refine cmpListNat_head_then r0 _ rest (by rfl) ?_
  rw [hmn]
  exact cmpListNat_getD_succ rest

/-- Bumping the micro component compares greater, whatever the input release. -/
lemma relKey_bump_micro (r0 : Nat) (rest : List Nat) :
    cmpListNat (trimZeros [r0, minorL (r0 :: rest), microL (r0 :: rest) + 1])
      (trimZeros (r0 :: rest)) = .gt := by
  have h1 : trimZeros [r0, minorL (r0 :: rest), microL (r0 :: rest) + 1]
      = [r0, minorL (r0 :: rest), microL (r0 :: rest) + 1] := by
    rw [trimZeros_three]; simp
  rw [h1]
  refine cmpListNat_head_then r0 _ rest (by rfl) ?_
  rcases rest with _ | ⟨r1, rest'⟩
  · rfl
  · have hmn : minorL (r0 :: r1 :: rest') = r1 := rfl
    have hmc : microL (r0 :: r1 :: rest') = rest'.getD 0 0 := rfl
    rw [hmn, hmc]
    refine cmpListNat_head_then r1 _ rest' (by rfl) ?_
    exact cmpListNat_getD_succ rest'

/-- For a release list of at most three components, `[major, minor, micro]`
has the same trimmed key as the list itself. -/
lemma trimZeros_components (r : List Nat) (hlen : r.length ≤ 3) :
    trimZeros [majorL r, minorL r, microL r] = trimZeros r := by
  rcases r with _ | ⟨a, _ | ⟨b, _ | ⟨c, _ | ⟨d, t⟩⟩⟩⟩
  · rfl
  · show trimZeros [a, 0, 0] = trimZeros [a]
    rw [trimZeros_three, trimZeros_one]; simp
  · show trimZeros [a, b, 0] = trimZeros [a, b]
    rw [trimZeros_three, trimZeros_two]; simp
  · rfl
  · simp at hlen

/-! ### Key-level monotonicity helpers -/

lemma versionGt_of_release (a b : VersionTuple) (he : a.epoch = b.epoch)
    (hr : cmpListNat (trimZeros a.release) (trimZeros b.release) = .gt) :
    versionGt a b := by
  unfold versionGt cmpVKey cmpkey
  dsimp only
  rw [he, cmpNat_self, then_eq, hr, then_gt]

lemma versionGt_of_pre (a b : VersionTuple) (he : a.epoch = b.epoch)
    (hr : trimZeros a.release = trimZeros b.release)
    (hp : cmpPPD (preKey a) (preKey b) = .gt) : versionGt a b := by
  unfold versionGt cmpVKey cmpkey
  dsimp only
  rw [he, cmpNat_self, then_eq, hr, cmpListNat_self, then_eq, hp, then_gt]

lemma versionGt_of_dev (a b : VersionTuple) (he : a.epoch = b.epoch)
    (hr : trimZeros a.release = trimZeros b.release)
    (hp : preKey a = preKey b)
    (hpost : cmpPPD (postKey a) (postKey b) = .eq)
    (hd : cmpPPD (devKey a) (devKey b) = .gt) : versionGt a b := by
  unfold versionGt cmpVKey cmpkey
  dsimp only
  rw [he, cmpNat_self, then_eq, hr, cmpListNat_self, then_eq, hp, cmpPPD_self,
    then_eq, hpost, then_eq, hd, then_gt]

/-! ### Characterizing `is_release` -/

lemma preStr_none (v : VersionTuple) (h : v.pre = none) : preStr v = "" := by
  unfold preStr; rw [h]

lemma preStr_some (v : VersionTuple) (s : String) (n : Nat)
    (h : v.pre = some (s, n)) : preStr v = s ++ toString n := by
  unfold preStr; rw [h]

lemma postStr_none (v : VersionTuple) (h : v.post = none) : postStr v = "" := by
  unfold postStr; rw [h]

lemma postStr_some (v : VersionTuple) (p : String × Nat)
    (h : v.post = some p) : postStr v = ".post" ++ toString p.2 := by
  unfold postStr; rw [h]

lemma devStr_none (v : VersionTuple) (h : v.dev = none) : devStr v = "" := by
  unfold devStr; rw [h]

lemma devStr_some (v : VersionTuple) (p : String × Nat)
    (h : v.dev = some p) : devStr v = ".dev" ++ toString p.2 := by
  unfold devStr; rw [h]

/-- The phase letter of a well-formed pre pair. -/
lemma wellFormed_pre (v : VersionTuple) (hwf : wellFormed v = true)
    (s : String) (n : Nat) (h : v.pre = some (s, n)) :
    s = "a" ∨ s = "b" ∨ s = "rc" := by
  unfold wellFormed at hwf
  rw [h] at hwf
  simp only [Bool.and_eq_true, Bool.or_eq_true, beq_iff_eq] at hwf
  tauto

/-- The dev letter of a well-formed dev pair. -/
lemma wellFormed_dev (v : VersionTuple) (hwf : wellFormed v = true)
    (p : String × Nat) (h : v.dev = some p) : p.1 = "dev" := by
  unfold wellFormed at hwf
  rcases p with ⟨s, n⟩
  rw [h] at hwf
  simp only [Bool.and_eq_true, beq_iff_eq] at hwf
  exact hwf.2

/-- The release list of a well-formed version is nonempty. -/
lemma wellFormed_release (v : VersionTuple) (hwf : wellFormed v = true) :
    v.release ≠ [] := by
  intro hnil
  unfold wellFormed at hwf
  rw [hnil] at hwf
  simp at hwf

/-- The predicate `is_release` (`public == base_version` in the source) holds
precisely when `pre`, `post` and `dev` are all absent.  The local segment does
not matter: `public` already strips it. -/
lemma is_release_iff (v : VersionTuple) (hwf : wellFormed v = true) :
    is_release v = true ↔ v.pre = none ∧ v.post = none ∧ v.dev = none := by
  constructor
  · intro h
    have heq : publicStr v = base_version v := beq_iff_eq.mp h
    have hlen := congrArg String.length heq
    simp only [publicStr, base_version, String.length_append] at hlen
    refine ⟨?_, ?_, ?_⟩
    · cases hp : v.pre with
      | none => rfl
      | some p =>
          obtain ⟨s, n⟩ := p
          exfalso
          have hs1 : 1 ≤ s.length := by
            rcases wellFormed_pre v hwf s n hp with h' | h' | h' <;>
              subst h' <;> decide
          have := preStr_some v s n hp
          rw [this, String.length_append] at hlen
          omega
    · cases hp : v.post with
      | none => rfl
      | some p =>
          exfalso
          have := postStr_some v p hp
          rw [this, String.length_append] at hlen
          have h5 : (".post" : String).length = 5 := rfl
          omega
    · cases hp : v.dev with
      | none => rfl
      | some p =>
          exfalso
          have := devStr_some v p hp
          rw [this, String.length_append] at hlen
          have h4 : (".dev" : String).length = 4 := rfl
          omega
  · rintro ⟨h1, h2, h3⟩
    unfold is_release publicStr
    rw [preStr_none v h1, postStr_none v h2, devStr_none v h3]
    simp [base_version]

lemma is_release_false_of_pre (v : VersionTuple) (hwf : wellFormed v = true)
    (p : String × Nat) (h : v.pre = some p) : is_release v = false := by
  rcases hb : is_release v with _ | _
  · rfl
  · obtain ⟨h1, _, _⟩ := (is_release_iff v hwf).mp hb
    rw [h] at h1
    cases h1

lemma is_release_false_of_dev (v : VersionTuple) (hwf : wellFormed v = true)
    (p : String × Nat) (h : v.dev = some p) : is_release v = false := by
  rcases hb : is_release v with _ | _
  · rfl
  · obtain ⟨_, _, h3⟩ := (is_release_iff v hwf).mp hb
    rw [h] at h3
    cases h3

/-! ### Case-analysis lemmas for the transition operations -/

lemma next_release_ok (v : VersionTuple) (b : String) (w : VersionTuple)
    (h : _next_release_version v b = .ok w) :
    w = next_major v ∨ w = next_minor v ∨ w = next_micro v := by
  unfold _next_release_version at h
  split_ifs at h
  · exact Or.inl (Except.ok.inj h).symm
  · exact Or.inr (Or.inl (Except.ok.inj h).symm)
  · exact Or.inr (Or.inr (Except.ok.inj h).symm)

lemma next_release_error (v : VersionTuple) (b : String)
    (h1 : b ≠ "major") (h2 : b ≠ "minor") (h3 : b ≠ "micro") :
    _next_release_version v b = .error ("Unknown version bump: " ++ b) := by
  unfold _next_release_version
  rw [if_neg (by simp [h1]), if_neg (by simp [h2]), if_neg (by simp [h3])]

lemma npv_ok_cases {v w : VersionTuple} {b g : String}
    (h : _next_prerelease_version v b g = .ok w) :
    (is_release v = true ∧ ∃ u, _next_release_version v b = .ok u ∧
        w = _build_suffixed_version u (_increment_prerelease u.pre g) none) ∨
    (is_release v = false ∧
        w = _build_suffixed_version v (_increment_prerelease v.pre g) none) := by
  unfold _next_prerelease_version at h
  by_cases hr : is_release v = true
  · rw [if_pos hr] at h
    cases hnr : _next_release_version v b with
    | error e => rw [hnr] at h; simp at h
    | ok u =>
        rw [hnr] at h
        exact Or.inl ⟨hr, u, rfl, (Except.ok.inj h).symm⟩
  · have hrf : is_release v = false := by revert hr; cases is_release v <;> simp
    rw [if_neg hr] at h
    exact Or.inr ⟨hrf, (Except.ok.inj h).symm⟩

lemma ndv_ok_cases {v w : VersionTuple} {b : String}
    (h : _next_devrelease_version v b = .ok w) :
    (is_release v = true ∧ ∃ u, _next_release_version v b = .ok u ∧
        w = _build_suffixed_version u (devPre u)
          (some (_increment_devrelease (u.dev.map Prod.snd)))) ∨
    (is_release v = false ∧
        w = _build_suffixed_version v (devPre v)
          (some (_increment_devrelease (v.dev.map Prod.snd)))) := by
  unfold _next_devrelease_version at h
  by_cases hr : is_release v = true
  · rw [if_pos hr] at h
    cases hnr : _next_release_version v b with
    | error e => rw [hnr] at h; simp at h
    | ok u =>
        rw [hnr] at h
        exact Or.inl ⟨hr, u, rfl, (Except.ok.inj h).symm⟩
  · have hrf : is_release v = false := by revert hr; cases is_release v <;> simp
    rw [if_neg hr] at h
    exact Or.inr ⟨hrf, (Except.ok.inj h).symm⟩

/-! ### Shape lemmas for the release-segment bumps -/

lemma next_major_of_release (v : VersionTuple) (hr : is_release v = true) :
    next_major v = ⟨v.epoch, [major v + 1, 0, 0], none, none, none, none⟩ := by
  simp [next_major, hr]

lemma next_minor_of_release (v : VersionTuple) (hr : is_release v = true) :
    next_minor v = ⟨v.epoch, [major v, minor v + 1, 0], none, none, none, none⟩ := by
  simp [next_minor, hr]

lemma next_micro_of_release (v : VersionTuple) (hr : is_release v = true) :
    next_micro v = ⟨v.epoch, [major v, minor v, micro v + 1],
      none, none, none, none⟩ := by
  simp [next_micro, hr]

lemma next_major_sup (v : VersionTuple) (hr : is_release v = false)
    (hmn : minor v = 0) (hmc : micro v = 0) :
    next_major v = ⟨v.epoch, [major v, 0, 0], none, none, none, none⟩ := by
  simp [next_major, hr, hmn, hmc]

lemma next_major_nosup (v : VersionTuple)
    (h : ¬(is_release v = false ∧ minor v = 0 ∧ micro v = 0)) :
    next_major v = ⟨v.epoch, [major v + 1, 0, 0], none, none, none, none⟩ := by
  unfold next_major
  rw [if_neg h]

lemma next_minor_sup (v : VersionTuple) (hr : is_release v = false)
    (hmc : micro v = 0) :
    next_minor v = ⟨v.epoch, [major v, minor v, 0], none, none, none, none⟩ := by
  simp [next_minor, hr, hmc]

lemma next_minor_nosup (v : VersionTuple)
    (h : ¬(is_release v = false ∧ micro v = 0)) :
    next_minor v = ⟨v.epoch, [major v, minor v + 1, 0], none, none, none, none⟩ := by
  unfold next_minor
  rw [if_neg h]

lemma next_micro_sup (v : VersionTuple) (hr : is_release v = false)
    (hmc : 0 < micro v) :
    next_micro v = ⟨v.epoch, [major v, minor v, micro v], none, none, none, none⟩ := by
  simp [next_micro, hr, hmc]

lemma next_micro_nosup (v : VersionTuple)
    (h : ¬(is_release v = false ∧ 0 < micro v)) :
    next_micro v = ⟨v.epoch, [major v, minor v, micro v + 1],
      none, none, none, none⟩ := by
  unfold next_micro
  rw [if_neg h]

/-! ### Monotonicity of the transition operations -/

lemma inc_pre_self (pr : String × Nat) :
    _increment_prerelease (some pr) pr.1 = (pr.1, pr.2 + 1) := by
  simp [_increment_prerelease, _increment_subrelease]

lemma inc_dev_some (m : Nat) :
    _increment_devrelease (some m) = ("dev", m + 1) := by
  by_cases hm : m = 0 <;>
    simp [_increment_devrelease, _increment_subrelease, hm]

lemma preKey_inf_gt (v : VersionTuple) (hwf : wellFormed v = true)
    (hrf : is_release v = false) (hpost : v.post = none) :
    cmpPPD .inf (preKey v) = .gt := by
  cases hp : v.pre with
  | some p =>
      obtain ⟨s, n⟩ := p
      have hk : preKey v = .seg s n := by simp [preKey, hp]
      rw [hk]
      exact cmpPPD_inf_gt _ (by simp)
  | none =>
      cases hd : v.dev with
      | some p =>
          have hk : preKey v = .negInf := by simp [preKey, hp, hpost, hd]
          rw [hk]
          rfl
      | none =>
          rw [(is_release_iff v hwf).mpr ⟨hp, hpost, hd⟩] at hrf
          cases hrf

lemma major_cons (v : VersionTuple) (r0 : Nat) (rest : List Nat)
    (hrel : v.release = r0 :: rest) : major v = r0 := by
  rw [major, majorL, hrel]
  rfl

lemma minor_cons (v : VersionTuple) (r0 : Nat) (rest : List Nat)
    (hrel : v.release = r0 :: rest) : minor v = minorL (r0 :: rest) := by
  rw [minor, minorL, hrel]
  rfl

lemma micro_cons (v : VersionTuple) (r0 : Nat) (rest : List Nat)
    (hrel : v.release = r0 :: rest) : micro v = microL (r0 :: rest) := by
  rw [micro, microL, hrel]
  rfl

lemma build_epoch (v : VersionTuple) (p d : Option (String × Nat)) :
    (_build_suffixed_version v p d).epoch = v.epoch := rfl

lemma build_release (v : VersionTuple) (p d : Option (String × Nat)) :
    (_build_suffixed_version v p d).release = v.release := rfl

lemma preKey_build_pair (v : VersionTuple) (pr : String × Nat)
    (d : Option (String × Nat)) :
    preKey (_build_suffixed_version v (some pr) d) = .seg pr.1 pr.2 := by
  cases pr
  rfl

lemma preKey_build_none_dev (v : VersionTuple) (d : String × Nat) :
    preKey (_build_suffixed_version v none (some d)) = .negInf := rfl

lemma postKey_build (v : VersionTuple) (p d : Option (String × Nat)) :
    postKey (_build_suffixed_version v p d) = .negInf := rfl

lemma devKey_build_some (v : VersionTuple) (p : Option (String × Nat))
    (d : String × Nat) :
    devKey (_build_suffixed_version v p (some d)) = .seg d.1 d.2 := by
  cases d
  rfl

lemma postKey_of_none (v : VersionTuple) (h : v.post = none) :
    postKey v = .negInf := by
  simp [postKey, h]

lemma devKey_of_some (v : VersionTuple) (d : String × Nat)
    (h : v.dev = some d) : devKey v = .seg d.1 d.2 := by
  obtain ⟨s, n⟩ := d
  simp [devKey, h]

/-- At a final release, each of the three release-segment bumps produces a
strictly greater release key. -/
lemma bump_release_gtkey (v u : VersionTuple) (hwf : wellFormed v = true)
    (hr : is_release v = true)
    (hu : u = next_major v ∨ u = next_minor v ∨ u = next_micro v) :
    u.epoch = v.epoch ∧
      cmpListNat (trimZeros u.release) (trimZeros v.release) = .gt := by
  obtain ⟨r0, rest, hrel⟩ :=
    List.exists_cons_of_ne_nil (wellFormed_release v hwf)
  rcases hu with hu | hu | hu <;> subst hu
  · rw [next_major_of_release v hr]
    refine ⟨rfl, ?_⟩
    show cmpListNat (trimZeros [major v + 1, 0, 0]) (trimZeros v.release) = .gt
    rw [major_cons v r0 rest hrel, hrel]
    exact relKey_bump_major r0 rest
  · rw [next_minor_of_release v hr]
    refine ⟨rfl, ?_⟩
    show cmpListNat (trimZeros [major v, minor v + 1, 0])
      (trimZeros v.release) = .gt
    rw [major_cons v r0 rest hrel, minor_cons v r0 rest hrel, hrel]
    exact relKey_bump_minor r0 rest
  · rw [next_micro_of_release v hr]
    refine ⟨rfl, ?_⟩
    show cmpListNat (trimZeros [major v, minor v, micro v + 1])
      (trimZeros v.release) = .gt
    rw [major_cons v r0 rest hrel, minor_cons v r0 rest hrel,
      micro_cons v r0 rest hrel, hrel]
    exact relKey_bump_micro r0 rest

lemma versionGt_next_major (v : VersionTuple) (hwf : wellFormed v = true)
    (hpost : v.post = none) (hlen : v.release.length ≤ 3) :
    versionGt (next_major v) v := by
  obtain ⟨r0, rest, hrel⟩ :=
    List.exists_cons_of_ne_nil (wellFormed_release v hwf)
  by_cases hr : is_release v = true
  · exact versionGt_of_release _ v
      (bump_release_gtkey v _ hwf hr (Or.inl rfl)).1
      (bump_release_gtkey v _ hwf hr (Or.inl rfl)).2
  · have hrf : is_release v = false := by
      revert hr; cases is_release v <;> simp
    by_cases hsup : minor v = 0 ∧ micro v = 0
    · rw [next_major_sup v hrf hsup.1 hsup.2]
      refine versionGt_of_pre _ v rfl ?_ ?_
      · show trimZeros [major v, 0, 0] = trimZeros v.release
        have hl : ([major v, 0, 0] : List Nat)
            = [major v, minor v, micro v] := by
          rw [hsup.1, hsup.2]
        rw [hl]
        exact trimZeros_components v.release hlen
      · exact preKey_inf_gt v hwf hrf hpost
    · rw [next_major_nosup v (fun hc => hsup ⟨hc.2.1, hc.2.2⟩)]
      refine versionGt_of_release _ v rfl ?_
      show cmpListNat (trimZeros [major v + 1, 0, 0]) (trimZeros v.release) = .gt
      rw [major_cons v r0 rest hrel, hrel]
      exact relKey_bump_major r0 rest

lemma versionGt_next_minor (v : VersionTuple) (hwf : wellFormed v = true)
    (hpost : v.post = none) (hlen : v.release.length ≤ 3) :
    versionGt (next_minor v) v := by
  obtain ⟨r0, rest, hrel⟩ :=
    List.exists_cons_of_ne_nil (wellFormed_release v hwf)
  by_cases hr : is_release v = true
  · exact versionGt_of_release _ v
      (bump_release_gtkey v _ hwf hr (Or.inr (Or.inl rfl))).1
      (bump_release_gtkey v _ hwf hr (Or.inr (Or.inl rfl))).2
  · have hrf : is_release v = false := by
      revert hr; cases is_release v <;> simp
    by_cases hsup : micro v = 0
    · rw [next_minor_sup v hrf hsup]
      refine versionGt_of_pre _ v rfl ?_ ?_
      · show trimZeros [major v, minor v, 0] = trimZeros v.release
        have hl : ([major v, minor v, 0] : List Nat)
            = [major v, minor v, micro v] := by
          rw [hsup]
        rw [hl]
        exact trimZeros_components v.release hlen
      · exact preKey_inf_gt v hwf hrf hpost
    · rw [next_minor_nosup v (fun hc => hsup hc.2)]
      refine versionGt_of_release _ v rfl ?_
      show cmpListNat (trimZeros [major v, minor v + 1, 0])
        (trimZeros v.release) = .gt
      rw [major_cons v r0 rest hrel, minor_cons v r0 rest hrel, hrel]
      exact relKey_bump_minor r0 rest

lemma versionGt_next_micro (v : VersionTuple) (hwf : wellFormed v = true)
    (hpost : v.post = none) (hlen : v.release.length ≤ 3) :
    versionGt (next_micro v) v := by
  obtain ⟨r0, rest, hrel⟩ :=
    List.exists_cons_of_ne_nil (wellFormed_release v hwf)
  by_cases hr : is_release v = true
  · exact versionGt_of_release _ v
      (bump_release_gtkey v _ hwf hr (Or.inr (Or.inr rfl))).1
      (bump_release_gtkey v _ hwf hr (Or.inr (Or.inr rfl))).2
  · have hrf : is_release v = false := by
      revert hr; cases is_release v <;> simp
    by_cases hsup : 0 < micro v
    · rw [next_micro_sup v hrf hsup]
      refine versionGt_of_pre _ v rfl ?_ ?_
      · show trimZeros [major v, minor v, micro v] = trimZeros v.release
        exact trimZeros_components v.release hlen
      · exact preKey_inf_gt v hwf hrf hpost
    · rw [next_micro_nosup v (fun hc => hsup hc.2)]
      refine versionGt_of_release _ v rfl ?_
      show cmpListNat (trimZeros [major v, minor v, micro v + 1])
        (trimZeros v.release) = .gt
      rw [major_cons v r0 rest hrel, minor_cons v r0 rest hrel,
        micro_cons v r0 rest hrel, hrel]
      exact relKey_bump_micro r0 rest

/-- For phase letters in `{a, b, rc}`, a rank-compatible target phase is
either equal to the current one or strictly above it in string order. -/
lemma phase_seg_gt (s g : String)
    (hs : s = "a" ∨ s = "b" ∨ s = "rc") (hgm : g = "a" ∨ g = "b" ∨ g = "rc")
    (hrank : phaseRank s ≤ phaseRank g) :
    g = s ∨ cmpString g s = .gt := by
  rcases hs with h | h | h <;> rcases hgm with h' | h' | h' <;>
    subst h <;> subst h' <;>
    first
      | exact Or.inl rfl
      | exact Or.inr (by decide)
      | exact absurd hrank (by decide)

/-- Monotonicity of `_next_prerelease_version` on post-free inputs whose
current phase does not order after the target phase. -/
lemma versionGt_prerelease (v : VersionTuple) (hwf : wellFormed v = true)
    (hpost : v.post = none) (g b : String) (w : VersionTuple)
    (hgm : g = "a" ∨ g = "b" ∨ g = "rc")
    (h : _next_prerelease_version v b g = .ok w)
    (hph : ∀ s n, v.pre = some (s, n) → phaseRank s ≤ phaseRank g) :
    versionGt w v := by
  rcases npv_ok_cases h with ⟨hr, u, hu, hw⟩ | ⟨hrf, hw⟩
  · obtain ⟨he, hk⟩ :=
      bump_release_gtkey v u hwf hr (next_release_ok v b u hu)
    subst hw
    exact versionGt_of_release _ v he hk
  · subst hw
    refine versionGt_of_pre _ v rfl rfl ?_
    rw [preKey_build_pair]
    cases hp : v.pre with
    | none =>
        have h1 : _increment_prerelease none g = (g, 1) := rfl
        rw [h1]
        cases hd : v.dev with
        | none =>
            rw [(is_release_iff v hwf).mpr ⟨hp, hpost, hd⟩] at hrf
            cases hrf
        | some d =>
            have hkv : preKey v = .negInf := by simp [preKey, hp, hpost, hd]
            rw [hkv]
            exact cmpPPD_seg_negInf g 1
    | some p =>
        obtain ⟨s, n⟩ := p
        have hkv : preKey v = .seg s n := by simp [preKey, hp]
        rw [hkv]
        by_cases hsg : s = g
        · subst hsg
          rw [inc_pre_self (s, n)]
          exact cmpPPD_seg_succ s n
        · have hform : _increment_prerelease (some (s, n)) g = (g, 1) := by
            simp [_increment_prerelease, _increment_subrelease,
              beq_eq_false_iff_ne.mpr hsg]
          rw [hform]
          rcases phase_seg_gt s g (wellFormed_pre v hwf s n hp) hgm
              (hph s n hp) with hc | hc
          · exact absurd hc.symm hsg
          · show (cmpString g s).then (cmpNat 1 n) = .gt
            rw [hc, then_gt]

/-- Monotonicity of `_next_devrelease_version` on post-free inputs. -/
lemma versionGt_devrelease (v : VersionTuple) (hwf : wellFormed v = true)
    (hpost : v.post = none) (b : String) (w : VersionTuple)
    (h : _next_devrelease_version v b = .ok w) :
    versionGt w v := by
  rcases ndv_ok_cases h with ⟨hr, u, hu, hw⟩ | ⟨hrf, hw⟩
  · obtain ⟨he, hk⟩ :=
      bump_release_gtkey v u hwf hr (next_release_ok v b u hu)
    subst hw
    exact versionGt_of_release _ v he hk
  · subst hw
    cases hp : v.pre with
    | none =>
        have hdp : devPre v = none := by simp [devPre, hp]
        cases hd : v.dev with
        | none =>
            rw [(is_release_iff v hwf).mpr ⟨hp, hpost, hd⟩] at hrf
            cases hrf
        | some d =>
            rw [hdp]
            refine versionGt_of_dev _ v rfl rfl ?_ ?_ ?_
            · rw [preKey_build_none_dev]
              simp [preKey, hp, hpost, hd]
            · rw [postKey_build, postKey_of_none v hpost]
              rfl
            · have hinc : _increment_devrelease ((some d).map Prod.snd)
                  = ("dev", d.2 + 1) := inc_dev_some d.2
              rw [hinc, devKey_build_some, devKey_of_some v d hd,
                wellFormed_dev v hwf d hd]
              exact cmpPPD_seg_succ ("dev") d.2
    | some pr =>
        cases hd : v.dev with
        | some d =>
            have hdev : is_devrelease v = true := by
              simp [is_devrelease, hd]
            have hdp : devPre v = some pr := by
              simp [devPre, hp, hdev]
            rw [hdp]
            refine versionGt_of_dev _ v rfl rfl ?_ ?_ ?_
            · rw [preKey_build_pair]
              simp [preKey, hp]
            · rw [postKey_build, postKey_of_none v hpost]
              rfl
            · have hinc : _increment_devrelease ((some d).map Prod.snd)
                  = ("dev", d.2 + 1) := inc_dev_some d.2
              rw [hinc, devKey_build_some, devKey_of_some v d hd,
                wellFormed_dev v hwf d hd]
              exact cmpPPD_seg_succ ("dev") d.2
        | none =>
            have hdev : is_devrelease v = false := by
              simp [is_devrelease, hd]
            have hdp : devPre v = some (pr.1, pr.2 + 1) := by
              simp only [devPre, hp, hdev, if_false, Bool.false_eq_true]
              rw [inc_pre_self pr]
            rw [hdp]
            refine versionGt_of_pre _ v rfl rfl ?_
            rw [preKey_build_pair]
            have hkv : preKey v = .seg pr.1 pr.2 := by
              obtain ⟨s, n⟩ := pr
              simp [preKey, hp]
            rw [hkv]
            exact cmpPPD_seg_succ pr.1 pr.2

/-! ### Error paths of the suffixed operations -/

lemma npv_error (v : VersionTuple) (b g e : String)
    (hr : is_release v = true)
    (he : _next_release_version v b = .error e) :
    _next_prerelease_version v b g = .error e := by
  unfold _next_prerelease_version
  rw [if_pos hr, he]

lemma npv_ok_of_not_release (v : VersionTuple) (b g : String)
    (hr : is_release v = false) :
    _next_prerelease_version v b g =
      .ok (_build_suffixed_version v
        (some (_increment_prerelease v.pre g)) none) := by
  unfold _next_prerelease_version
  rw [if_neg (by simp [hr])]

lemma ndv_error (v : VersionTuple) (b e : String)
    (hr : is_release v = true)
    (he : _next_release_version v b = .error e) :
    _next_devrelease_version v b = .error e := by
  unfold _next_devrelease_version
  rw [if_pos hr, he]

lemma ndv_ok_of_not_release (v : VersionTuple) (b : String)
    (hr : is_release v = false) :
    _next_devrelease_version v b =
      .ok (_build_suffixed_version v (devPre v)
        (some (_increment_devrelease (v.dev.map Prod.snd)))) := by
  unfold _next_devrelease_version
  rw [if_neg (by simp [hr])]
  rfl

/-! ## The claims -/

/-- C1, counterexample: the claim fails as stated.  For the well-formed,
post-free, three-component version `1.2.3b1`, `next_alpha` (with the valid
default bump `micro`) returns `1.2.3a1`, which is strictly SMALLER than its
input under PEP440 ordering — moving to an earlier phase restarts numbering at
`a1`, and `a1 < b1`. -/
theorem c1_monotonicity_counterexample :
    next_alpha ⟨0, [1, 2, 3], some ("b", 1), none, none, none⟩ ("micro")
      = .ok ⟨0, [1, 2, 3], some ("a", 1), none, none, none⟩ ∧
    versionLt ⟨0, [1, 2, 3], some ("a", 1), none, none, none⟩
      ⟨0, [1, 2, 3], some ("b", 1), none, none, none⟩ ∧
    ¬versionGt ⟨0, [1, 2, 3], some ("a", 1), none, none, none⟩
      ⟨0, [1, 2, 3], some ("b", 1), none, none, none⟩ :=
  ⟨rfl, by decide, by decide⟩

/-- C1, amended: every transition operation returns a strictly greater version
provided the input has no post segment and at most three release components,
and — for `next_alpha`/`next_beta`/`next_release_candidate` — the current
pre-release phase (if any) does not order after the target phase.  The
prerelease/dev operations are quantified over every bump for which they return
a result, which includes every valid bump in `{major, minor, micro}`. -/
theorem c1_monotonicity_amended (v : VersionTuple) (hwf : wellFormed v = true)
    (hpost : v.post = none) (hlen : v.release.length ≤ 3) :
    versionGt (next_major v) v ∧
    versionGt (next_minor v) v ∧
    versionGt (next_micro v) v ∧
    (∀ b w, next_dev v b = .ok w → versionGt w v) ∧
    (∀ b w, next_alpha v b = .ok w →
      (∀ s n, v.pre = some (s, n) → phaseRank s ≤ phaseRank ("a")) →
      versionGt w v) ∧
    (∀ b w, next_beta v b = .ok w →
      (∀ s n, v.pre = some (s, n) → phaseRank s ≤ phaseRank ("b")) →
      versionGt w v) ∧
    (∀ b w, next_release_candidate v b = .ok w →
      (∀ s n, v.pre = some (s, n) → phaseRank s ≤ phaseRank ("rc")) →
      versionGt w v) :=
  ⟨versionGt_next_major v hwf hpost hlen,
    versionGt_next_minor v hwf hpost hlen,
    versionGt_next_micro v hwf hpost hlen,
    fun b w h => versionGt_devrelease v hwf hpost b w h,
    fun b w h hph =>
      versionGt_prerelease v hwf hpost ("a") b w (Or.inl rfl) h hph,
    fun b w h hph =>
      versionGt_prerelease v hwf hpost ("b") b w (Or.inr (Or.inl rfl)) h hph,
    fun b w h hph =>
      versionGt_prerelease v hwf hpost ("rc") b w (Or.inr (Or.inr rfl)) h hph⟩

/-- C1, witness: the amended theorem applied to the concrete version `1.2.3a1`:
`next_major` and `next_beta` (bump `micro`) both produce strictly greater
versions. -/
theorem c1_monotonicity_witness :
    versionGt (next_major ⟨0, [1, 2, 3], some ("a", 1), none, none, none⟩)
      ⟨0, [1, 2, 3], some ("a", 1), none, none, none⟩ ∧
    versionGt ⟨0, [1, 2, 3], some ("b", 1), none, none, none⟩
      ⟨0, [1, 2, 3], some ("a", 1), none, none, none⟩ := by
  have h := c1_monotonicity_amended
    ⟨0, [1, 2, 3], some ("a", 1), none, none, none⟩ (by decide) rfl (by decide)
  refine ⟨h.1, ?_⟩
  refine h.2.2.2.2.2.1 ("micro")
    ⟨0, [1, 2, 3], some ("b", 1), none, none, none⟩ rfl ?_
  intro s n hs
  cases hs
  decide

/-- C2, code bug: on the mid-dev alpha `1.2.1a2.dev1`, the code's `next_alpha`
returns `1.2.1a3` — `_next_prerelease_version` increments the pre pair
unconditionally, with no dev-release check — while the claim (and the
repository's own test `test_next_alpha` on `("1.2.1a2.dev1", "micro",
"1.2.1a2")`) requires `1.2.1a2`.  The different-phase half of the claim does
hold: `next_beta` produces `1.2.1b1`. -/
theorem c2_dev_promote_code_bug :
    next_alpha ⟨0, [1, 2, 1], some ("a", 2), none, some ("dev", 1), none⟩
        ("micro")
      = .ok ⟨0, [1, 2, 1], some ("a", 3), none, none, none⟩ ∧
    next_beta ⟨0, [1, 2, 1], some ("a", 2), none, some ("dev", 1), none⟩
        ("micro")
      = .ok ⟨0, [1, 2, 1], some ("b", 1), none, none, none⟩ :=
  ⟨rfl, rfl⟩

/-- C3, counterexample: the claim fails as stated.  On the non-final version
`1.2.1a1`, `next_alpha` with the invalid bump `"stuff"` does NOT fail: the
bump argument is only inspected when the input is a final release, so the call
succeeds and returns `1.2.1a2`. -/
theorem c3_invalid_bump_counterexample :
    next_alpha ⟨0, [1, 2, 1], some ("a", 1), none, none, none⟩ ("stuff")
      = .ok ⟨0, [1, 2, 1], some ("a", 2), none, none, none⟩ :=
  rfl

/-- C3, amended: for a bump argument outside `{major, minor, micro}`, each of
`next_alpha`, `next_beta`, `next_release_candidate` and `next_dev` fails with
the `TypeError` naming the received value when the input IS a final release
(and, the operations being pure functions, no mutation of the input occurs),
while on a non-final input the argument is never inspected and the operation
succeeds. -/
theorem c3_invalid_bump_amended (v : VersionTuple) (s : String)
    (h1 : s ≠ "major") (h2 : s ≠ "minor") (h3 : s ≠ "micro") :
    (is_release v = true →
      next_alpha v s = .error ("Unknown version bump: " ++ s) ∧
      next_beta v s = .error ("Unknown version bump: " ++ s) ∧
      next_release_candidate v s = .error ("Unknown version bump: " ++ s) ∧
      next_dev v s = .error ("Unknown version bump: " ++ s)) ∧
    (is_release v = false →
      (∃ w, next_alpha v s = .ok w) ∧
      (∃ w, next_beta v s = .ok w) ∧
      (∃ w, next_release_candidate v s = .ok w) ∧
      (∃ w, next_dev v s = .ok w)) := by
  have herr := next_release_error v s h1 h2 h3
  constructor
  · intro hr
    exact ⟨npv_error v s ("a") _ hr herr, npv_error v s ("b") _ hr herr,
      npv_error v s ("rc") _ hr herr, ndv_error v s _ hr herr⟩
  · intro hr
    exact ⟨⟨_, npv_ok_of_not_release v s ("a") hr⟩,
      ⟨_, npv_ok_of_not_release v s ("b") hr⟩,
      ⟨_, npv_ok_of_not_release v s ("rc") hr⟩,
      ⟨_, ndv_ok_of_not_release v s hr⟩⟩

/-- C3, witness: the amended theorem at the final release `1.1.1` (the call
fails) and at the non-final `1.2.1a1` (the call succeeds), both with the
invalid bump `"stuff"`. -/
theorem c3_invalid_bump_witness :
    next_alpha ⟨0, [1, 1, 1], none, none, none, none⟩ ("stuff")
      = .error ("Unknown version bump: " ++ "stuff") ∧
    (∃ w, next_alpha ⟨0, [1, 2, 1], some ("a", 1), none, none, none⟩ ("stuff")
      = .ok w) :=
  ⟨((c3_invalid_bump_amended ⟨0, [1, 1, 1], none, none, none, none⟩ ("stuff")
      (by decide) (by decide) (by decide)).1 rfl).1,
    ((c3_invalid_bump_amended ⟨0, [1, 2, 1], some ("a", 1), none, none, none⟩
      ("stuff") (by decide) (by decide) (by decide)).2 rfl).1⟩

/-- C4, confirmed: every transition result has `post` and `local` cleared; the
three release-segment bumps additionally clear `pre` and `dev`, and the
prerelease transitions additionally clear `dev` (stated for every bump
argument for which a result is returned, which includes all valid ones). -/
theorem c4_clears_suffixes (v : VersionTuple) :
    ((next_major v).pre = none ∧ (next_major v).post = none ∧
      (next_major v).dev = none ∧ (next_major v).loc = none) ∧
    ((next_minor v).pre = none ∧ (next_minor v).post = none ∧
      (next_minor v).dev = none ∧ (next_minor v).loc = none) ∧
    ((next_micro v).pre = none ∧ (next_micro v).post = none ∧
      (next_micro v).dev = none ∧ (next_micro v).loc = none) ∧
    (∀ b w, next_alpha v b = .ok w →
      w.post = none ∧ w.loc = none ∧ w.dev = none) ∧
    (∀ b w, next_beta v b = .ok w →
      w.post = none ∧ w.loc = none ∧ w.dev = none) ∧
    (∀ b w, next_release_candidate v b = .ok w →
      w.post = none ∧ w.loc = none ∧ w.dev = none) ∧
    (∀ b w, next_dev v b = .ok w → w.post = none ∧ w.loc = none) := by
  refine ⟨⟨rfl, rfl, rfl, rfl⟩, ⟨rfl, rfl, rfl, rfl⟩, ⟨rfl, rfl, rfl, rfl⟩,
    ?_, ?_, ?_, ?_⟩
  · intro b w h
    rcases npv_ok_cases h with ⟨_, u, _, hw⟩ | ⟨_, hw⟩ <;> subst hw <;>
      exact ⟨rfl, rfl, rfl⟩
  · intro b w h
    rcases npv_ok_cases h with ⟨_, u, _, hw⟩ | ⟨_, hw⟩ <;> subst hw <;>
      exact ⟨rfl, rfl, rfl⟩
  · intro b w h
    rcases npv_ok_cases h with ⟨_, u, _, hw⟩ | ⟨_, hw⟩ <;> subst hw <;>
      exact ⟨rfl, rfl, rfl⟩
  · intro b w h
    rcases ndv_ok_cases h with ⟨_, u, _, hw⟩ | ⟨_, hw⟩ <;> subst hw <;>
      exact ⟨rfl, rfl⟩

/-- C4, witness: the theorem at `1.2.1a1.dev1`, with `next_alpha` instantiated
at bump `micro`. -/
theorem c4_clears_suffixes_witness :
    (next_major ⟨0, [1, 2, 1], some ("a", 1), none, some ("dev", 1), none⟩).post
      = none ∧
    (⟨0, [1, 2, 1], some ("a", 2), none, none, none⟩ : VersionTuple).post
        = none ∧
      (⟨0, [1, 2, 1], some ("a", 2), none, none, none⟩ : VersionTuple).loc
        = none ∧
      (⟨0, [1, 2, 1], some ("a", 2), none, none, none⟩ : VersionTuple).dev
        = none := by
  have h := c4_clears_suffixes
    ⟨0, [1, 2, 1], some ("a", 1), none, some ("dev", 1), none⟩
  exact ⟨h.1.2.1, h.2.2.2.1 ("micro") _ rfl⟩

/-- C5, counterexample: the claim fails as stated.  A version with only a
local segment set (`1.2.3+abc`) satisfies `is_release` — `public` strips the
local segment before the comparison with `base_version` — even though its
`local` field is not absent, so "`is_release` iff pre, post, dev AND local all
absent" is false (and "public = base" is not equivalent to that four-way
absence). -/
theorem c5_is_release_counterexample :
    is_release ⟨0, [1, 2, 3], none, none, none,
        some [LocalPart.str ("abc")]⟩ = true ∧
    (⟨0, [1, 2, 3], none, none, none,
        some [LocalPart.str ("abc")]⟩ : VersionTuple).loc ≠ none :=
  ⟨rfl, by decide⟩

/-- C5, amended: for every well-formed version, `is_release` (defined as
`public == base_version`) holds if and only if `pre`, `post` and `dev` are all
absent; the `local` field is irrelevant because `public` excludes it. -/
theorem c5_is_release_amended (v : VersionTuple) (hwf : wellFormed v = true) :
    is_release v = true ↔ v.pre = none ∧ v.post = none ∧ v.dev = none :=
  is_release_iff v hwf

/-- C5, witness: the amended theorem evaluated on `1.2.3+abc`. -/
theorem c5_is_release_witness :
    (⟨0, [1, 2, 3], none, none, none,
        some [LocalPart.str ("abc")]⟩ : VersionTuple).pre = none ∧
    (⟨0, [1, 2, 3], none, none, none,
        some [LocalPart.str ("abc")]⟩ : VersionTuple).post = none ∧
    (⟨0, [1, 2, 3], none, none, none,
        some [LocalPart.str ("abc")]⟩ : VersionTuple).dev = none :=
  (c5_is_release_amended
    ⟨0, [1, 2, 3], none, none, none, some [LocalPart.str ("abc")]⟩
    (by decide)).mp rfl

/-- C6, confirmed: the release-segment bumps suppress the increment exactly
when the version is not a final release and all components below the targeted
one are zero (for `next_micro`: when `micro > 0`); otherwise the targeted
component is incremented and the lower ones are reset to `0`.  Includes the
claim's concrete cases `next_minor("1.2.0a1") = 1.2.0`,
`next_micro("1.2.0a1") = 1.2.1` and `next_major("1.1.1a1") = 2.0.0`. -/
theorem c6_suppression (v : VersionTuple) :
    (major (next_major v) = major v ↔
      (is_release v = false ∧ minor v = 0 ∧ micro v = 0)) ∧
    (minor (next_minor v) = minor v ↔ (is_release v = false ∧ micro v = 0)) ∧
    (micro (next_micro v) = micro v ↔ (is_release v = false ∧ 0 < micro v)) ∧
    (¬(is_release v = false ∧ minor v = 0 ∧ micro v = 0) →
      (next_major v).release = [major v + 1, 0, 0]) ∧
    (¬(is_release v = false ∧ micro v = 0) →
      (next_minor v).release = [major v, minor v + 1, 0]) ∧
    (¬(is_release v = false ∧ 0 < micro v) →
      (next_micro v).release = [major v, minor v, micro v + 1]) ∧
    next_minor ⟨0, [1, 2, 0], some ("a", 1), none, none, none⟩
      = ⟨0, [1, 2, 0], none, none, none, none⟩ ∧
    next_micro ⟨0, [1, 2, 0], some ("a", 1), none, none, none⟩
      = ⟨0, [1, 2, 1], none, none, none, none⟩ ∧
    next_major ⟨0, [1, 1, 1], some ("a", 1), none, none, none⟩
      = ⟨0, [2, 0, 0], none, none, none, none⟩ := by
  refine ⟨?_, ?_, ?_,
    fun hc => by rw [next_major_nosup v hc],
    fun hc => by rw [next_minor_nosup v hc],
    fun hc => by rw [next_micro_nosup v hc],
    by decide, by decide, by decide⟩
  · have hM : major (next_major v) =
        (if is_release v = false ∧ minor v = 0 ∧ micro v = 0 then major v
         else major v + 1) := rfl
    rw [hM]
    by_cases hc : is_release v = false ∧ minor v = 0 ∧ micro v = 0
    · rw [if_pos hc]
      exact iff_of_true rfl hc
    · rw [if_neg hc]
      exact iff_of_false (by omega) hc
  · have hM : minor (next_minor v) =
        (if is_release v = false ∧ micro v = 0 then minor v
         else minor v + 1) := rfl
    rw [hM]
    by_cases hc : is_release v = false ∧ micro v = 0
    · rw [if_pos hc]
      exact iff_of_true rfl hc
    · rw [if_neg hc]
      exact iff_of_false (by omega) hc
  · have hM : micro (next_micro v) =
        (if is_release v = false ∧ 0 < micro v then micro v
         else micro v + 1) := rfl
    rw [hM]
    by_cases hc : is_release v = false ∧ 0 < micro v
    · rw [if_pos hc]
      exact iff_of_true rfl hc
    · rw [if_neg hc]
      exact iff_of_false (by omega) hc

/-- C6, witness: the non-suppressed clause of the theorem at `1.1.1a1` (minor
is nonzero, so `next_major` does increment). -/
theorem c6_suppression_witness :
    (next_major ⟨0, [1, 1, 1], some ("a", 1), none, none, none⟩).release
      = [major ⟨0, [1, 1, 1], some ("a", 1), none, none, none⟩ + 1, 0, 0] :=
  (c6_suppression ⟨0, [1, 1, 1], some ("a", 1), none, none, none⟩).2.2.2.1
    (by decide)

/-- C7, confirmed: `next_dev` first bumps the release segment per
`version_bump` when the input is a final release; keeps the (phase, number)
pair when a pre-release phase is in progress and the version is already a dev
release; increments the phase's number when a pre-release phase is in progress
without a dev marker; keeps `pre` absent when no phase is in progress; and
takes the dev counter from absent to `1` and from `n` to `n + 1`.  Includes
the claim's concrete cases `next_dev("1.2.1.dev1") = 1.2.1.dev2` and
`next_dev("1.2.1a1.dev1") = 1.2.1a1.dev2`. -/
theorem c7_next_dev_behaviour (v : VersionTuple) (hwf : wellFormed v = true) :
    (∀ b w, next_dev v b = .ok w →
      (∀ p, v.pre = some p → v.dev ≠ none → w.pre = some p) ∧
      (∀ s n, v.pre = some (s, n) → v.dev = none → w.pre = some (s, n + 1)) ∧
      (v.pre = none → w.pre = none) ∧
      (v.dev = none → w.dev = some ("dev", 1)) ∧
      (∀ s n, v.dev = some (s, n) → w.dev = some ("dev", n + 1)) ∧
      (is_release v = true → b = "major" →
        w.release = [major v + 1, 0, 0]) ∧
      (is_release v = true → b = "minor" →
        w.release = [major v, minor v + 1, 0]) ∧
      (is_release v = true → b = "micro" →
        w.release = [major v, minor v, micro v + 1])) ∧
    next_dev ⟨0, [1, 2, 1], none, none, some ("dev", 1), none⟩ ("micro")
      = .ok ⟨0, [1, 2, 1], none, none, some ("dev", 2), none⟩ ∧
    next_dev ⟨0, [1, 2, 1], some ("a", 1), none, some ("dev", 1), none⟩
        ("micro")
      = .ok ⟨0, [1, 2, 1], some ("a", 1), none, some ("dev", 2), none⟩ := by
  refine ⟨?_, rfl, rfl⟩
  intro b w h
  rcases ndv_ok_cases h with ⟨hr, u, hu, hw⟩ | ⟨hrf, hw⟩
  · obtain ⟨hpn, hpon, hdn⟩ := (is_release_iff v hwf).mp hr
    subst hw
    refine ⟨?_, ?_, ?_, ?_, ?_, ?_, ?_, ?_⟩
    · intro p hp
      rw [hpn] at hp
      cases hp
    · intro s n hp
      rw [hpn] at hp
      cases hp
    · intro _
      rcases next_release_ok v b u hu with h' | h' | h' <;> subst h' <;> rfl
    · intro _
      rcases next_release_ok v b u hu with h' | h' | h' <;> subst h' <;> rfl
    · intro s n hd
      rw [hdn] at hd
      cases hd
    · intro _ hb
      subst hb
      have hq : u = next_major v :=
        (Except.ok.inj (Eq.trans (rfl :
          _next_release_version v ("major") = .ok (next_major v)).symm hu)).symm
      subst hq
      show (next_major v).release = [major v + 1, 0, 0]
      rw [next_major_of_release v hr]
    · intro _ hb
      subst hb
      have hq : u = next_minor v :=
        (Except.ok.inj (Eq.trans (rfl :
          _next_release_version v ("minor") = .ok (next_minor v)).symm hu)).symm
      subst hq
      show (next_minor v).release = [major v, minor v + 1, 0]
      rw [next_minor_of_release v hr]
    · intro _ hb
      subst hb
      have hq : u = next_micro v :=
        (Except.ok.inj (Eq.trans (rfl :
          _next_release_version v ("micro") = .ok (next_micro v)).symm hu)).symm
      subst hq
      show (next_micro v).release = [major v, minor v, micro v + 1]
      rw [next_micro_of_release v hr]
  · subst hw
    refine ⟨?_, ?_, ?_, ?_, ?_, ?_, ?_, ?_⟩
    · intro p hp hd
      show devPre v = some p
      cases hdd : v.dev with
      | none => exact absurd hdd hd
      | some d =>
          have hdev : is_devrelease v = true := by simp [is_devrelease, hdd]
          simp [devPre, hp, hdev]
    · intro s n hp hd
      show devPre v = some (s, n + 1)
      have hdev : is_devrelease v = false := by simp [is_devrelease, hd]
      simp only [devPre, hp, hdev, Bool.false_eq_true, if_false]
      rw [inc_pre_self (s, n)]
    · intro hp
      show devPre v = none
      simp [devPre, hp]
    · intro hd
      show some (_increment_devrelease (v.dev.map Prod.snd)) = some ("dev", 1)
      rw [hd]
      rfl
    · intro s n hd
      show some (_increment_devrelease (v.dev.map Prod.snd))
        = some ("dev", n + 1)
      rw [hd]
      rw [show ((some (s, n)).map Prod.snd) = some n from rfl, inc_dev_some n]
    · intro hr _
      rw [hr] at hrf
      cases hrf
    · intro hr _
      rw [hr] at hrf
      cases hrf
    · intro hr _
      rw [hr] at hrf
      cases hrf

/-- C7, witness: the theorem applied to `1.2.1a1.dev1` with bump `micro`: the
pre pair is kept and the dev counter goes from 1 to 2. -/
theorem c7_next_dev_witness :
    (⟨0, [1, 2, 1], some ("a", 1), none, some ("dev", 2), none⟩
        : VersionTuple).pre = some ("a", 1) ∧
    (⟨0, [1, 2, 1], some ("a", 1), none, some ("dev", 2), none⟩
        : VersionTuple).dev = some ("dev", 2) := by
  have h := (c7_next_dev_behaviour
    ⟨0, [1, 2, 1], some ("a", 1), none, some ("dev", 1), none⟩ (by decide)).1
    ("micro") ⟨0, [1, 2, 1], some ("a", 1), none, some ("dev", 2), none⟩ rfl
  exact ⟨h.1 ("a", 1) rfl (by decide), h.2.2.2.2.1 ("dev") 1 rfl⟩

/-- C8, counterexample: the claim fails as stated.  On the well-formed
two-component, non-final version `1.2a1`, `next_alpha` keeps the release
segment `(1, 2)` unchanged, so the result does not have exactly three release
components. -/
theorem c8_release_length_counterexample :
    next_alpha ⟨0, [1, 2], some ("a", 1), none, none, none⟩ ("micro")
      = .ok ⟨0, [1, 2], some ("a", 2), none, none, none⟩ ∧
    (⟨0, [1, 2], some ("a", 2), none, none, none⟩
        : VersionTuple).release.length ≠ 3 :=
  ⟨rfl, by decide⟩

/-- C8, amended: `next_major`, `next_minor` and `next_micro` always return a
release segment of exactly three components; the prerelease and dev
transitions return three components when the input is a final release (they go
through a release-segment bump) and otherwise keep the input's release segment
unchanged, whatever its length. -/
theorem c8_release_length_amended (v : VersionTuple) :
    (next_major v).release.length = 3 ∧
    (next_minor v).release.length = 3 ∧
    (next_micro v).release.length = 3 ∧
    (∀ b w, next_alpha v b = .ok w →
      (is_release v = true → w.release.length = 3) ∧
      (is_release v = false → w.release = v.release)) ∧
    (∀ b w, next_beta v b = .ok w →
      (is_release v = true → w.release.length = 3) ∧
      (is_release v = false → w.release = v.release)) ∧
    (∀ b w, next_release_candidate v b = .ok w →
      (is_release v = true → w.release.length = 3) ∧
      (is_release v = false → w.release = v.release)) ∧
    (∀ b w, next_dev v b = .ok w →
      (is_release v = true → w.release.length = 3) ∧
      (is_release v = false → w.release = v.release)) := by
  refine ⟨rfl, rfl, rfl, ?_, ?_, ?_, ?_⟩ <;> intro b w h
  · rcases npv_ok_cases h with ⟨hr, u, hu, hw⟩ | ⟨hrf, hw⟩ <;> subst hw
    · refine ⟨fun _ => ?_, fun hf => by rw [hr] at hf; cases hf⟩
      rcases next_release_ok v b u hu with h' | h' | h' <;> subst h' <;> rfl
    · exact ⟨fun ht => (by rw [ht] at hrf; cases hrf), fun _ => rfl⟩
  · rcases npv_ok_cases h with ⟨hr, u, hu, hw⟩ | ⟨hrf, hw⟩ <;> subst hw
    · refine ⟨fun _ => ?_, fun hf => by rw [hr] at hf; cases hf⟩
      rcases next_release_ok v b u hu with h' | h' | h' <;> subst h' <;> rfl
    · exact ⟨fun ht => (by rw [ht] at hrf; cases hrf), fun _ => rfl⟩
  · rcases npv_ok_cases h with ⟨hr, u, hu, hw⟩ | ⟨hrf, hw⟩ <;> subst hw
    · refine ⟨fun _ => ?_, fun hf => by rw [hr] at hf; cases hf⟩
      rcases next_release_ok v b u hu with h' | h' | h' <;> subst h' <;> rfl
    · exact ⟨fun ht => (by rw [ht] at hrf; cases hrf), fun _ => rfl⟩
  · rcases ndv_ok_cases h with ⟨hr, u, hu, hw⟩ | ⟨hrf, hw⟩ <;> subst hw
    · refine ⟨fun _ => ?_, fun hf => by rw [hr] at hf; cases hf⟩
      rcases next_release_ok v b u hu with h' | h' | h' <;> subst h' <;> rfl
    · exact ⟨fun ht => (by rw [ht] at hrf; cases hrf), fun _ => rfl⟩

/-- C8, witness: the amended theorem at the non-final two-component `1.2a1`
(release preserved) and, via `next_major`, at the same input (three
components). -/
theorem c8_release_length_witness :
    (⟨0, [1, 2], some ("a", 2), none, none, none⟩
        : VersionTuple).release
      = (⟨0, [1, 2], some ("a", 1), none, none, none⟩
        : VersionTuple).release ∧
    (next_major ⟨0, [1, 2], some ("a", 1), none, none, none⟩).release.length
      = 3 := by
  have h := c8_release_length_amended
    ⟨0, [1, 2], some ("a", 1), none, none, none⟩
  exact ⟨(h.2.2.2.1 ("micro") ⟨0, [1, 2], some ("a", 2), none, none, none⟩
    rfl).2 rfl, h.1⟩

/-- C9, confirmed (over the heap model of `__copy__`): the copy carries the
same sort key as a key-synchronized original (so the two compare equal under
`__eq__`), the copy is a distinct reference, and mutating the copy's
`_version` or cached `_key` attributes leaves the original object — hence its
string rendering and its ordering key — unchanged, and vice versa. -/
theorem c9_copy_independence (h : Heap) (r : Nat) (hr : r < h.next)
    (hsync : (h.mem r).key = cmpkey (h.mem r).fields) :
    ((copyVersion h r).1.mem (copyVersion h r).2).key
      = ((copyVersion h r).1.mem r).key ∧
    (copyVersion h r).2 ≠ r ∧
    (∀ t k, (setKey (setFields (copyVersion h r).1 (copyVersion h r).2 t)
      (copyVersion h r).2 k).mem r = h.mem r) ∧
    (∀ t k, versionStr ((setKey (setFields (copyVersion h r).1
        (copyVersion h r).2 t) (copyVersion h r).2 k).mem r).fields
        = versionStr ((h.mem r).fields) ∧
      ((setKey (setFields (copyVersion h r).1 (copyVersion h r).2 t)
        (copyVersion h r).2 k).mem r).key = (h.mem r).key) ∧
    (∀ t k, (setKey (setFields (copyVersion h r).1 r t) r k).mem
      (copyVersion h r).2 = (copyVersion h r).1.mem (copyVersion h r).2) := by
  have hne : r ≠ h.next := by omega
  have hne' : h.next ≠ r := fun hc => hne hc.symm
  have hmemr : ∀ t k, (setKey (setFields (copyVersion h r).1
      (copyVersion h r).2 t) (copyVersion h r).2 k).mem r = h.mem r := by
    intro t k
    simp [copyVersion, setFields, setKey, hne]
  refine ⟨?_, hne', hmemr, ?_, ?_⟩
  · simp [copyVersion, hne, hsync]
  · intro t k
    rw [hmemr t k]
    exact ⟨rfl, rfl⟩
  · intro t k
    simp [copyVersion, setFields, setKey, hne']

/-- C9, witness: the theorem at a one-object heap holding `1` whose cached key
is synchronized; the copy lands at the fresh reference `1 ≠ 0` and mutating it
leaves the original untouched. -/
theorem c9_copy_independence_witness :
    (copyVersion ⟨fun _ => ⟨⟨0, [1], none, none, none, none⟩,
        cmpkey ⟨0, [1], none, none, none, none⟩⟩, 1⟩ 0).2 ≠ 0 ∧
    (setKey (setFields (copyVersion ⟨fun _ =>
        ⟨⟨0, [1], none, none, none, none⟩,
          cmpkey ⟨0, [1], none, none, none, none⟩⟩, 1⟩ 0).1
      (copyVersion ⟨fun _ => ⟨⟨0, [1], none, none, none, none⟩,
        cmpkey ⟨0, [1], none, none, none, none⟩⟩, 1⟩ 0).2
      ⟨7, [9], none, none, none, none⟩)
      (copyVersion ⟨fun _ => ⟨⟨0, [1], none, none, none, none⟩,
        cmpkey ⟨0, [1], none, none, none, none⟩⟩, 1⟩ 0).2
      (cmpkey ⟨7, [9], none, none, none, none⟩)).mem 0
      = (⟨fun _ => ⟨⟨0, [1], none, none, none, none⟩,
        cmpkey ⟨0, [1], none, none, none, none⟩⟩, 1⟩ : Heap).mem 0 := by
  have h := c9_copy_independence
    ⟨fun _ => ⟨⟨0, [1], none, none, none, none⟩,
      cmpkey ⟨0, [1], none, none, none, none⟩⟩, 1⟩ 0 (by decide) rfl
  exact ⟨h.2.1, h.2.2.1 ⟨7, [9], none, none, none, none⟩
    (cmpkey ⟨7, [9], none, none, none, none⟩)⟩

/-- C10, confirmed: every transition operation preserves the epoch (for the
prerelease/dev transitions, whenever a result is returned, which includes
every valid bump). -/
theorem c10_epoch_preserved (v : VersionTuple) :
    (next_major v).epoch = v.epoch ∧
    (next_minor v).epoch = v.epoch ∧
    (next_micro v).epoch = v.epoch ∧
    (∀ b w, next_alpha v b = .ok w → w.epoch = v.epoch) ∧
    (∀ b w, next_beta v b = .ok w → w.epoch = v.epoch) ∧
    (∀ b w, next_release_candidate v b = .ok w → w.epoch = v.epoch) ∧
    (∀ b w, next_dev v b = .ok w → w.epoch = v.epoch) := by
  refine ⟨rfl, rfl, rfl, ?_, ?_, ?_, ?_⟩ <;> intro b w h
  · rcases npv_ok_cases h with ⟨_, u, hu, hw⟩ | ⟨_, hw⟩ <;> subst hw
    · rcases next_release_ok v b u hu with h' | h' | h' <;> subst h' <;> rfl
    · rfl
  · rcases npv_ok_cases h with ⟨_, u, hu, hw⟩ | ⟨_, hw⟩ <;> subst hw
    · rcases next_release_ok v b u hu with h' | h' | h' <;> subst h' <;> rfl
    · rfl
  · rcases npv_ok_cases h with ⟨_, u, hu, hw⟩ | ⟨_, hw⟩ <;> subst hw
    · rcases next_release_ok v b u hu with h' | h' | h' <;> subst h' <;> rfl
    · rfl
  · rcases ndv_ok_cases h with ⟨_, u, hu, hw⟩ | ⟨_, hw⟩ <;> subst hw
    · rcases next_release_ok v b u hu with h' | h' | h' <;> subst h' <;> rfl
    · rfl

/-- C10, witness: the theorem at the epoch-5 version `5!1.2.3`, with
`next_alpha` instantiated at bump `micro`. -/
theorem c10_epoch_preserved_witness :
    (⟨5, [1, 2, 4], some ("a", 1), none, none, none⟩ : VersionTuple).epoch
      = (⟨5, [1, 2, 3], none, none, none, none⟩ : VersionTuple).epoch :=
  (c10_epoch_preserved ⟨5, [1, 2, 3], none, none, none, none⟩).2.2.2.1
    ("micro") ⟨5, [1, 2, 4], some ("a", 1), none, none, none⟩ rfl

end Pep440
